import Mathlib

/-!
Shallow embedding of the zulip tag-bot core (`src/taggerbot.py` and its
refactored twin `src/tagger-bot.py`): the bidirectional tag/user index
`TagMapping`, its dirty-tracking persistence against a key/value store, the
comma-list parameter parser, and the command dispatcher, together with proofs
about them.

Python dictionaries (`collections.defaultdict(set)`) are modelled as
association lists with insertion-ordered unique keys and `Finset String`
values.  Python iterates a `set` in unspecified hash order; wherever the code
iterates one, the model enumerates it in a canonical (sorted) order, and every
statement proved below is extensional in the sets involved, so no statement
depends on that choice.  The `difflib.SequenceMatcher(...).ratio()` similarity
score is an external library call and is modelled as an explicit parameter
`sim`, exactly as the key/value store collaborator is modelled by the
`Storage` structure.
-/

namespace TaggerBot

/-- Byte-wise strict comparison of strings as character lists (the order used
only to pick a canonical enumeration of a set). -/
def strLtb : List Char → List Char → Bool
  | [], [] => false
  | [], _ :: _ => true
  | _ :: _, [] => false
  | a :: as, b :: bs =>
    if a.toNat < b.toNat then true
    else if b.toNat < a.toNat then false
    else strLtb as bs

/-- Reflexive closure of `strLtb`, as the canonical total order on strings. -/
def strLe (a b : String) : Bool := !(strLtb b.data a.data)

/-- `strLe` as a relation. -/
def sLe (a b : String) : Prop := strLe a b = true

instance : DecidableRel sLe := fun a b => instDecidableEqBool (strLe a b) true

theorem strLtb_asymm : ∀ x y, strLtb x y = true → strLtb y x = false := by
  intro x
  induction x with
  | nil => intro y h; cases y <;> simp_all [strLtb]
  | cons a as ih =>
    intro y h
    cases y with
    | nil => simp_all [strLtb]
    | cons b bs =>
      simp only [strLtb] at h ⊢
      by_cases hab : a.toNat < b.toNat
      · rw [if_neg (by omega : ¬ b.toNat < a.toNat), if_pos hab]
      · by_cases hba : b.toNat < a.toNat
        · rw [if_neg hab, if_pos hba] at h
          exact absurd h (by simp)
        · rw [if_neg hab, if_neg hba] at h
          rw [if_neg hba, if_neg hab]
          exact ih bs h

theorem strLtb_cotrans :
    ∀ x z y, strLtb x z = true → strLtb x y = true ∨ strLtb y z = true := by
  intro x
  induction x with
  | nil =>
    intro z y h
    cases z with
    | nil => simp [strLtb] at h
    | cons c cs =>
      cases y with
      | nil => right; simp [strLtb]
      | cons b bs => left; simp [strLtb]
  | cons a as ih =>
    intro z y h
    cases z with
    | nil => simp [strLtb] at h
    | cons c cs =>
      cases y with
      | nil => right; simp [strLtb]
      | cons b bs =>
        simp only [strLtb] at h ⊢
        by_cases hab : a.toNat < b.toNat
        · left; simp [hab]
        · by_cases hbc : b.toNat < c.toNat
          · right; simp [hbc]
          · split at h
            · omega
            · split at h
              · exact absurd h (by simp)
              · have hba : ¬ b.toNat < a.toNat := by omega
                have hcb : ¬ c.toNat < b.toNat := by omega
                rcases ih cs bs h with h' | h'
                · left; simp [if_neg hab, if_neg hba, h']
                · right; simp [if_neg hbc, if_neg hcb, h']

theorem strLtb_irrefl_of_eq : ∀ x y, strLtb x y = false → strLtb y x = false → x = y := by
  intro x
  induction x with
  | nil => intro y h _; cases y <;> simp_all [strLtb]
  | cons a as ih =>
    intro y h h'
    cases y with
    | nil => simp_all [strLtb]
    | cons b bs =>
      simp only [strLtb] at h h'
      by_cases hab : a.toNat < b.toNat
      · rw [if_pos hab] at h
        exact absurd h (by simp)
      · by_cases hba : b.toNat < a.toNat
        · rw [if_pos hba] at h'
          exact absurd h' (by simp)
        · rw [if_neg hab, if_neg hba] at h
          rw [if_neg hba, if_neg hab] at h'
          have hc : a = b := Char.eq_of_val_eq (UInt32.ext (by
            simp only [Char.toNat] at hab hba
            omega))
          rw [hc, ih bs h h']

instance : IsTotal String sLe :=
  ⟨fun a b => by
    by_cases h : strLtb b.data a.data = true
    · right
      simp only [sLe, strLe, Bool.not_eq_true']
      exact strLtb_asymm _ _ h
    · left
      simp only [sLe, strLe, Bool.not_eq_true']
      exact Bool.not_eq_true _ ▸ h⟩

instance : IsTrans String sLe :=
  ⟨fun a b c hab hbc => by
    simp only [sLe, strLe, Bool.not_eq_true'] at hab hbc ⊢
    by_contra h
    rw [Bool.not_eq_false] at h
    rcases strLtb_cotrans _ _ b.data h with h' | h' <;> simp_all⟩

instance : IsAntisymm String sLe :=
  ⟨fun a b hab hba => by
    simp only [sLe, strLe, Bool.not_eq_true'] at hab hba
    have hd := strLtb_irrefl_of_eq _ _ hba hab
    obtain ⟨da⟩ := a
    obtain ⟨db⟩ := b
    exact congrArg String.mk hd⟩

/-- Canonical, computable enumeration of a finite set of strings: the model
of iterating a Python `set`. -/
def finList (s : Finset String) : List String :=
  Quot.liftOn s.val (fun l => l.insertionSort sLe)
    (fun a b h => List.eq_of_perm_of_sorted
      (((a.perm_insertionSort sLe).trans h).trans (b.perm_insertionSort sLe).symm)
      (List.sorted_insertionSort sLe a) (List.sorted_insertionSort sLe b))

theorem mem_finList {u : String} {s : Finset String} : u ∈ finList s ↔ u ∈ s := by
  obtain ⟨v, hv⟩ := s
  induction v using Quot.inductionOn with
  | h l =>
    show u ∈ l.insertionSort sLe ↔ _
    rw [(l.perm_insertionSort sLe).mem_iff]
    simp [Finset.mem_mk]

/-- Python `str.lower()`. -/
def pyLower (s : String) : String := ⟨s.data.map Char.toLower⟩

/-- Python `str.strip()`. -/
def pyTrim (s : String) : String :=
  ⟨((s.data.dropWhile Char.isWhitespace).reverse.dropWhile Char.isWhitespace).reverse⟩

/-- Helper for `pySplit`: accumulate the current piece (reversed). -/
def pySplitAux (sep : Char) : List Char → List Char → List String
  | [], acc => [⟨acc.reverse⟩]
  | c :: rest, acc =>
    if c = sep then ⟨acc.reverse⟩ :: pySplitAux sep rest []
    else pySplitAux sep rest (c :: acc)

/-- Python `s.split(sep)` for a one-character separator (the only kind the
bot uses: `","`). -/
def pySplit (s : String) (sep : Char) : List String :=
  pySplitAux sep s.data []

/-- Helper for `pySplitFirst`. -/
def pySplitFirstAux (sep : Char) : List Char → List Char → List String
  | [], acc => [⟨acc.reverse⟩]
  | c :: rest, acc =>
    if c = sep then [⟨acc.reverse⟩, ⟨rest⟩]
    else pySplitFirstAux sep rest (c :: acc)

/-- Python `s.split(sep, 1)`: split only at the first occurrence of `sep`
(the bot uses `":"` and `" "`). -/
def pySplitFirst (s : String) (sep : Char) : List String :=
  pySplitFirstAux sep s.data []

/-- Model of a Python `collections.defaultdict(set)` with `str` keys: an
association list in key-insertion order with `Finset String` values. -/
abbrev DMap := List (String × Finset String)

/-- Plain read without default-insertion (`dict.get(k, set())` semantics):
the value at `k`, or the empty set when `k` is not a key. -/
def dFind : DMap → String → Finset String
  | [], _ => ∅
  | p :: rest, k => if p.1 == k then p.2 else dFind rest k

/-- Key membership, `k in m` (`dict.__contains__`). -/
def dMem : DMap → String → Bool
  | [], _ => false
  | p :: rest, k => p.1 == k || dMem rest k

/-- `m[k]` followed by an in-place update `f` of the stored set, with
`defaultdict` semantics: a missing key is first inserted (at the end,
matching dict insertion order) with the default empty set. -/
def dApply : DMap → String → (Finset String → Finset String) → DMap
  | [], k, f => [(k, f ∅)]
  | p :: rest, k, f =>
    if p.1 == k then (p.1, f p.2) :: rest else p :: dApply rest k f

/-- A bare `m[k]` read on a `defaultdict`: returns the stored set and the
possibly extended dictionary, since even a read inserts the default for a
missing key. -/
def dGet (m : DMap) (k : String) : Finset String × DMap :=
  (dFind m k, dApply m k id)

/-- The aggregate root of the bot: the tag index, the inverse user index and
the dirty flag (`TagMapping.__init__`). -/
structure TagMapping where
  tags : DMap
  users : DMap
  dirty : Bool
deriving DecidableEq

/-- A freshly constructed, empty `TagMapping()`. -/
def TagMapping.empty : TagMapping := ⟨[], [], false⟩

/-- The key/value store collaborator, restricted to the two keys the bot
uses: `"mapping"` and `"limit"` (`StorageContainer`). -/
structure Storage where
  mapping : Option DMap
  limit : Option (List String)
deriving DecidableEq

/-- A store with neither key present. -/
def Storage.empty : Storage := ⟨none, none⟩

/-- `TagMapping.dump`: serialize `tags`, keeping only tags with at least one
user (`if len(us) > 0`). -/
def TagMapping.dump (M : TagMapping) : DMap :=
  M.tags.filter (fun p => 0 < p.2.card)

/-- One iteration of the `for tag, users in d.items()` loop of
`TagMapping.load`: `self.tags[tag.lower()].update(users)` and, for every
user in the entry, `self.users[user].add(tag.lower())`. -/
def loadEntry (m : TagMapping) (p : String × Finset String) : TagMapping :=
  { m with
    tags := dApply m.tags (pyLower p.1) (fun s => s ∪ p.2),
    users :=
      (finList p.2).foldl (fun us u => dApply us u (insert (pyLower p.1))) m.users }

/-- The body of `TagMapping.load` applied to an already-retrieved dict `d`:
both indices are cleared, the dirty flag is reset, then `d` is replayed. -/
def loadDict (d : DMap) : TagMapping :=
  d.foldl loadEntry TagMapping.empty

/-- `TagMapping.load(storage)`: retrieve `storage.get("mapping", {})`, clear
both indices and the dirty flag, and rebuild from the retrieved dict.  The
prior state `M` is cleared away entirely, which the model reflects by not
inspecting it. -/
def TagMapping.load (M : TagMapping) (st : Storage) : TagMapping :=
  loadDict (st.mapping.getD [])

/-- `TagMapping.store(storage)`: write `dump()` under `"mapping"` and clear
the dirty flag, but only when dirty. -/
def TagMapping.store (M : TagMapping) (st : Storage) : TagMapping × Storage :=
  if M.dirty then ({ M with dirty := false }, { st with mapping := some M.dump })
  else (M, st)

/-- The body of the `for tag in tags` loop of `TagMapping.add`:
`self.tags[tag.lower()].add(user)` and `self.users[user].add(tag.lower())`. -/
def addStep (user : String) (m : TagMapping) (tag : String) : TagMapping :=
  { m with
    tags := dApply m.tags (pyLower tag) (insert user),
    users := dApply m.users user (insert (pyLower tag)) }

/-- `TagMapping.add(user, *tags)`: set the dirty flag, then insert every
(normalized tag, user) pair into both indices. -/
def TagMapping.add (M : TagMapping) (user : String) (ts : List String) : TagMapping :=
  ts.foldl (addStep user) { M with dirty := true }

/-- The body of the `for tag in tags` loop of `TagMapping.remove`:
`self.tags[tag.lower()].discard(user)` and
`self.users[user].discard(tag.lower())`. -/
def removeStep (user : String) (m : TagMapping) (tag : String) : TagMapping :=
  { m with
    tags := dApply m.tags (pyLower tag) (fun s => s.erase user),
    users := dApply m.users user (fun s => s.erase (pyLower tag)) }

/-- `TagMapping.remove(user, *tags)`: set the dirty flag, then discard every
(normalized tag, user) pair from both indices. -/
def TagMapping.remove (M : TagMapping) (user : String) (ts : List String) : TagMapping :=
  ts.foldl (removeStep user) { M with dirty := true }

/-- `TagMapping.find(tag=None, user=None)`.  The `tag` selector is examined
first (`if tag is not None`), then the `user` selector; with neither
supplied a `KeyError` is raised, modelled as `none`.  Because the indices
are defaultdicts, a lookup returns the possibly extended mapping as well. -/
def TagMapping.find (M : TagMapping) (tagSel userSel : Option String) :
    Option (Finset String × TagMapping) :=
  match tagSel with
  | some t =>
    let r := dGet M.tags (pyLower t)
    some (r.1, { M with tags := r.2 })
  | none =>
    match userSel with
    | some u =>
      let r := dGet M.users u
      some (r.1, { M with users := r.2 })
    | none => none

/-- `TagMapping.__contains__`: `tag in self.tags`, an exact (unnormalized)
key test that does not insert anything. -/
def TagMapping.contains (M : TagMapping) (tag : String) : Bool :=
  dMem M.tags tag

/-- `TagMapping.nearest(tag)`: the known tag with the maximal similarity
score against the query, case-folding both sides, together with that score.
`max` over an empty generator raises `ValueError`, modelled as `none`;
Python's `max` keeps the first maximal element, as does the fold here. -/
def TagMapping.nearest (M : TagMapping) (sim : String → String → ℚ) (tag : String) :
    Option (String × ℚ) :=
  match M.tags.map (fun p => (p.1, sim (pyLower p.1) (pyLower tag))) with
  | [] => none
  | x :: xs => some (xs.foldl (fun best e => if best.2 < e.2 then e else best) x)

/-- The error taxonomy visible at the dispatcher boundary: the two
user-facing errors and the unexpected internal Python exceptions that can
arise in the modelled code paths. -/
inductive BotError
  | missingParameter
  | invalidCommand (cmd : String)
  | valueError
  | indexError
  | attributeError
deriving DecidableEq

deriving instance DecidableEq for Except

/-- `read_parameters(params)`: exactly one raw segment is required, which is
then split on commas and trimmed; the resulting Python `set` is modelled as
a duplicate-free list. -/
def read_parameters (params : List String) : Except BotError (List String) :=
  match params with
  | [p] => .ok (((pySplit p ',').map pyTrim).dedup)
  | _ => .error .missingParameter

/-- The command/parameter split of `handle_message`: after trimming, split
on the first colon if one is present, otherwise on the first space. -/
def parseCommand (content : String) : String × List String :=
  let c := pyTrim content
  let parts := if c.data.contains ':' then pySplitFirst c ':' else pySplitFirst c ' '
  match parts with
  | [] => ("", [])
  | cmd :: rest => (cmd, rest)

/-- `strings["TAG_LIST"]` rendered. -/
def tagListText (sender tagsStr : String) : String :=
  "Hi @**" ++ sender ++ "**, you are currently tagged with: " ++ tagsStr

/-- `strings["TAG_SEARCH"]` rendered. -/
def tagSearchText (sender joined bulletsStr : String) : String :=
  "Hi @**" ++ sender ++ "**, here's a list of everybody tagged with: " ++
    joined ++ "\n\n" ++ bulletsStr

/-- `strings["TAG_SEARCH_TYPO"]` rendered. -/
def tagSearchTypoText (sender tag near : String) : String :=
  "Hi @**" ++ sender ++ "**, I don't know the tag '" ++ tag ++
    "' - did you mean '" ++ near ++ "'?"

/-- `strings["TAG_SEARCH_UNKNOWN"]` rendered. -/
def tagSearchUnknownText (sender tag : String) : String :=
  "Hi @**" ++ sender ++ "**, I don't know the tag '" ++ tag ++ "'"

/-- `strings["TAG_LIMIT"]` rendered. -/
def tagLimitText (usersStr : String) : String :=
  "Tag search is currently limited to: " ++ usersStr

/-- `strings["TAG_UNLIMIT"]`. -/
def tagUnlimitText : String :=
  "Tag search is currently unlimited"

/-- `strings["ERR_PARAM"]`. -/
def errParamText : String :=
  "Sorry, I didn't understand you, a parameter is missing"

/-- `strings["ERR_COMMAND"]` rendered with the offending token. -/
def errCommandText (cmd : String) : String :=
  "Sorry, '" ++ cmd ++ "' is not a command I understand."

/-- One line of `usage()`. -/
def usageLine (cmd stx helpStr : String) : String :=
  "- @mention-bot " ++ cmd ++ ": " ++ stx ++ "  -> " ++ helpStr

/-- `usage()`: the help text plus one line per command. -/
def usageText : String :=
  "This plugin allows users to store and query the tag-set of other users." ++
    "\n\n" ++ String.intercalate "\n"
      [usageLine "help" "" "To show all commands the bot supports.",
       usageLine "list" "" "Show all tags currently applied to the user",
       usageLine "add" "<tag>, <tag> ..." "To add personal tag(s).",
       usageLine "remove" "<tag>, <tag>, ..." "To remove personal tag(s).",
       usageLine "search" "<tag>, <tag>, ..." "To search for somebody with <tag>.",
       usageLine "limit" "<user>, <user>, ..." "Limit search to this group of users.",
       usageLine "unlimit" "" "Remove all search limits."]

/-- The limit set as read back by the dispatcher:
`set(storage.get("limit", []))`. -/
def limitOf (st : Storage) : Finset String :=
  (st.limit.getD []).toFinset

/-- `results = [tags.find(tag=tag) for tag in all_tags]` in
`taggerbot.py`, threading the defaultdict state through each lookup. -/
def findAllTags : TagMapping → List String → List (Finset String) × TagMapping
  | M, [] => ([], M)
  | M, t :: rest =>
    let r := dGet M.tags (pyLower t)
    let res := findAllTags { M with tags := r.2 } rest
    (r.1 :: res.1, res.2)

/-- The observable outcome of the `search` branch of
`taggerbot.py:handle_message`, before rendering. -/
inductive SearchOutcome
  | typo (tag near : String)
  | unknown (tag : String)
  | found (users : Finset String)
deriving DecidableEq

/-- The `search` branch of `taggerbot.py:handle_message` (lines 274-310):
validate every queried tag (exact `tag not in tags`), produce the typo or
unknown outcome for the first unknown tag, otherwise look every tag up and
intersect.  With a non-empty limit set the code computes
`limit.intersection(*results)`; with an empty one it computes
`results[0].intersection(*results[:1])` — the slice `[:1]` is kept exactly
as written in the source. -/
def searchReply (sim : String → String → ℚ) (M : TagMapping)
    (all_tags : List String) (limit : Finset String) :
    Except BotError (SearchOutcome × TagMapping) :=
  match all_tags.find? (fun t => ! M.contains t) with
  | some tag =>
    match M.nearest sim tag with
    | none => .error .valueError
    | some p =>
      if p.2 > mkRat 3 4 then .ok (.typo tag p.1, M)
      else .ok (.unknown tag, M)
  | none =>
    let fr := findAllTags M all_tags
    if 0 < limit.card then
      .ok (.found (fr.1.foldl (· ∩ ·) limit), fr.2)
    else
      match fr.1 with
      | [] => .error .indexError
      | r0 :: rest => .ok (.found (((r0 :: rest).take 1).foldl (· ∩ ·) r0), fr.2)

/-- Render a `SearchOutcome` exactly as `taggerbot.py` formats its reply. -/
def renderOutcome (sender : String) (all_tags : List String) :
    SearchOutcome → String
  | .typo tag near => tagSearchTypoText sender tag near
  | .unknown tag => tagSearchUnknownText sender tag
  | .found us =>
    tagSearchText sender (String.intercalate " and " all_tags)
      (String.intercalate "\n" ((finList us).map (fun u => "- @**" ++ u ++ "**")))

/-- `tagger-bot.py:TagMapping.find(tag=...)` returns `sorted(...)`, a list;
this is the `results` comprehension of `command_search` in that revision. -/
def findAllSorted : TagMapping → List String → List (List String) × TagMapping
  | M, [] => ([], M)
  | M, t :: rest =>
    let r := dGet M.tags (pyLower t)
    let res := findAllSorted { M with tags := r.2 } rest
    (finList r.1 :: res.1, res.2)

/-- `command_search` of `tagger-bot.py` (lines 186-222), kept exactly as
written there: membership is tested on `tag.lower()`; when the best score
exceeds 0.75 the function returns the *plain unknown* template formatted
with `(sender, tag, nearest)` (the extra argument is ignored by
`str.format`); when it does not, the *did-you-mean* template is formatted
with only `(sender, tag)`, which raises `IndexError`; on the all-known path
`find` returns sorted lists, so the empty-limit branch's
`results[0].intersection` raises `AttributeError`. -/
def command_search (sim : String → String → ℚ) (sender : String) (M : TagMapping)
    (all_tags : List String) (limit : Finset String) :
    Except BotError (String × TagMapping) :=
  match all_tags.find? (fun t => ! M.contains (pyLower t)) with
  | some tag =>
    match M.nearest sim (pyLower tag) with
    | none => .error .valueError
    | some p =>
      if p.2 > mkRat 3 4 then .ok (tagSearchUnknownText sender tag, M)
      else .error .indexError
  | none =>
    let fr := findAllSorted M all_tags
    if 0 < limit.card then
      .ok (tagSearchText sender (String.intercalate " and " all_tags)
        (String.intercalate "\n"
          ((finList (fr.1.foldl (fun s l => s ∩ l.toFinset) limit)).map
            (fun u => "- @**" ++ u ++ "**"))), fr.2)
    else
      match fr.1 with
      | [] => .error .indexError
      | _ :: _ => .error .attributeError

/-- The dispatch table of `taggerbot.py:handle_message`, returning either
the replies to send plus the updated store, or the Python exception that
escaped the branch. -/
def dispatch (sim : String → String → ℚ) (content sender : String) (st : Storage) :
    Except BotError (List String × Storage) :=
  let pc := parseCommand content
  let command := pc.1
  let params := pc.2
  if command = "help" then
    .ok ([usageText], st)
  else if command = "list" ∨ command = "add" ∨ command = "remove" then
    match (if command = "add" ∨ command = "remove" then read_parameters params
           else .ok []) with
    | .error e => .error e
    | .ok all_tags =>
      let M0 := TagMapping.empty.load st
      let M1 :=
        if command = "add" then M0.add sender all_tags
        else if command = "remove" then M0.remove sender all_tags
        else M0
      let fr := dGet M1.users sender
      let M2 := { M1 with users := fr.2 }
      let reply := tagListText sender (String.intercalate ", " (finList fr.1))
      let sr := M2.store st
      .ok ([reply], sr.2)
  else if command = "search" then
    match read_parameters params with
    | .error e => .error e
    | .ok all_tags =>
      let M0 := TagMapping.empty.load st
      match searchReply sim M0 all_tags (limitOf st) with
      | .error e => .error e
      | .ok r =>
        let sr := r.2.store st
        .ok ([renderOutcome sender all_tags r.1], sr.2)
  else if command = "limit" then
    match read_parameters params with
    | .error e => .error e
    | .ok users =>
      let limit := (st.limit.getD []).toFinset ∪ users.toFinset
      let reply :=
        if 0 < limit.card then tagLimitText (String.intercalate ", " (finList limit))
        else tagUnlimitText
      .ok ([reply], { st with limit := some (finList limit) })
  else if command = "unlimit" then
    .ok ([tagUnlimitText], { st with limit := some [] })
  else .error (.invalidCommand command)

/-- `taggerbot.py:handle_message`: the dispatcher wrapped in the boundary
`try/except`.  `MissingParameterError` and `InvalidCommandError` become
user-facing replies; every other exception is logged and swallowed with no
reply. -/
def handle_message (sim : String → String → ℚ) (content sender : String)
    (st : Storage) : List String × Storage :=
  match dispatch sim content sender st with
  | .ok r => r
  | .error .missingParameter => ([errParamText], st)
  | .error (.invalidCommand c) => ([errCommandText c], st)
  | .error _ => ([], st)

/-- The mutating and querying operations a caller can perform on a
`TagMapping` between persistence points. -/
inductive MOp
  | madd (user : String) (ts : List String)
  | mremove (user : String) (ts : List String)
  | mfindTag (t : String)
  | mfindUser (u : String)

/-- Whether an operation is one of the mutators `add`/`remove`. -/
def MOp.isMut : MOp → Bool
  | .madd _ _ => true
  | .mremove _ _ => true
  | _ => false

/-- Apply one operation to a mapping. -/
def applyMOp (M : TagMapping) : MOp → TagMapping
  | .madd u ts => M.add u ts
  | .mremove u ts => M.remove u ts
  | .mfindTag t =>
    match M.find (some t) none with
    | some p => p.2
    | none => M
  | .mfindUser u =>
    match M.find none (some u) with
    | some p => p.2
    | none => M

/-- Apply a sequence of operations left to right. -/
def applyMOps (M : TagMapping) (ops : List MOp) : TagMapping :=
  ops.foldl applyMOp M

/-- Invariant I1, index consistency: a user is filed under a tag exactly when
that tag is filed under the user. -/
def I1 (M : TagMapping) : Prop :=
  ∀ t u, u ∈ dFind M.tags t ↔ t ∈ dFind M.users u

theorem dFind_dApply (m : DMap) (k k' : String) (f : Finset String → Finset String) :
    dFind (dApply m k f) k' = if k' = k then f (dFind m k) else dFind m k' := by
  induction m with
  | nil =>
    by_cases h : k' = k
    · simp [dApply, dFind, h]
    · simp [dApply, dFind, beq_iff_eq, Ne.symm h, h]
  | cons p rest ih =>
    by_cases h : p.1 = k
    · by_cases h' : k' = k
      · simp [dApply, dFind, beq_iff_eq, h, h']
      · have hp : ¬ k = k' := fun he => h' he.symm
        simp [dApply, dFind, beq_iff_eq, h, h', hp]
    · by_cases h' : p.1 = k'
      · have hk : ¬ k' = k := fun he => h (h' ▸ he)
        simp [dApply, dFind, beq_iff_eq, h, h', hk]
      · simp [dApply, dFind, beq_iff_eq, h, h', ih]

theorem dMem_dApply (m : DMap) (k k' : String) (f : Finset String → Finset String) :
    dMem (dApply m k f) k' = (dMem m k' || (k == k')) := by
  induction m with
  | nil => simp [dApply, dMem, Bool.or_comm]
  | cons p rest ih =>
    simp only [dApply]
    by_cases h : p.1 = k
    · simp only [beq_iff_eq, h, if_pos, dMem]
      by_cases h' : k = k'
      · simp [h', beq_iff_eq]
      · simp [beq_iff_eq, h', dMem]
    · simp only [beq_iff_eq, h, if_neg, dMem, ih, Bool.or_assoc]

theorem dFind_eq_empty {m : DMap} {k : String} (h : dMem m k = false) :
    dFind m k = ∅ := by
  induction m with
  | nil => rfl
  | cons p rest ih =>
    simp only [dMem, Bool.or_eq_false_iff] at h
    simp [dFind, h.1, ih h.2]

theorem dFind_dApply_id (m : DMap) (k k' : String) :
    dFind (dApply m k id) k' = dFind m k' := by
  rw [dFind_dApply]
  split <;> simp_all

theorem dMem_true_iff {m : DMap} {k : String} :
    dMem m k = true ↔ ∃ p ∈ m, p.1 = k := by
  induction m with
  | nil => simp [dMem]
  | cons p rest ih => simp [dMem, ih, beq_iff_eq]

theorem dFind_of_dMem {m : DMap} {k : String} (h : dMem m k = true) :
    ∃ p ∈ m, p.1 = k ∧ dFind m k = p.2 := by
  induction m with
  | nil => simp [dMem] at h
  | cons p rest ih =>
    by_cases h' : p.1 = k
    · exact ⟨p, List.mem_cons_self p rest, h', by simp [dFind, h']⟩
    · simp only [dMem, beq_iff_eq, h', Bool.false_or, decide_eq_true_eq] at h
      obtain ⟨q, hq, hq1, hq2⟩ := ih (by simpa [h'] using h)
      exact ⟨q, List.mem_cons_of_mem p hq, hq1, by simp [dFind, h', hq2]⟩

theorem dFind_of_mem_nodup {m : DMap} {p : String × Finset String}
    (hn : (m.map Prod.fst).Nodup) (hp : p ∈ m) : dFind m p.1 = p.2 := by
  induction m with
  | nil => simp at hp
  | cons q rest ih =>
    simp only [List.map_cons, List.nodup_cons] at hn
    rcases List.mem_cons.mp hp with h | h
    · simp [h, dFind]
    · have : ¬ q.1 = p.1 := by
        intro he
        exact hn.1 (he ▸ List.mem_map.mpr ⟨p, h, rfl⟩)
      simp [dFind, this, ih hn.2 h]

theorem mem_dFind_iff {m : DMap} {k u : String} (hn : (m.map Prod.fst).Nodup) :
    u ∈ dFind m k ↔ ∃ p ∈ m, p.1 = k ∧ u ∈ p.2 := by
  constructor
  · intro h
    by_cases hm : dMem m k = true
    · obtain ⟨p, hp, hp1, hp2⟩ := dFind_of_dMem hm
      exact ⟨p, hp, hp1, hp2 ▸ h⟩
    · rw [dFind_eq_empty (Bool.not_eq_true _ ▸ hm)] at h
      simp at h
  · rintro ⟨p, hp, rfl, hu⟩
    exact dFind_of_mem_nodup hn hp ▸ hu

theorem I1_empty : I1 TagMapping.empty := by
  intro t u
  simp [TagMapping.empty, dFind]

theorem I1_addStep {m : TagMapping} (h : I1 m) (user tag : String) :
    I1 (addStep user m tag) := by
  intro t' u'
  simp only [addStep, dFind_dApply]
  by_cases ht : t' = pyLower tag <;> by_cases hu : u' = user <;>
    simp [ht, hu, Finset.mem_insert, h t' u', h (pyLower tag) u', h t' user]

theorem I1_removeStep {m : TagMapping} (h : I1 m) (user tag : String) :
    I1 (removeStep user m tag) := by
  intro t' u'
  simp only [removeStep, dFind_dApply]
  by_cases ht : t' = pyLower tag <;> by_cases hu : u' = user <;>
    simp [ht, hu, Finset.mem_erase, h t' u', h (pyLower tag) u', h t' user]

theorem I1_foldl_addStep {m : TagMapping} (h : I1 m) (user : String) :
    ∀ ts : List String, I1 (ts.foldl (addStep user) m) := by
  intro ts
  induction ts generalizing m with
  | nil => exact h
  | cons t rest ih => exact ih (I1_addStep h user t)

theorem I1_foldl_removeStep {m : TagMapping} (h : I1 m) (user : String) :
    ∀ ts : List String, I1 (ts.foldl (removeStep user) m) := by
  intro ts
  induction ts generalizing m with
  | nil => exact h
  | cons t rest ih => exact ih (I1_removeStep h user t)

theorem I1_dirty {m : TagMapping} (h : I1 m) (b : Bool) : I1 { m with dirty := b } :=
  h

theorem I1_add {M : TagMapping} (h : I1 M) (user : String) (ts : List String) :
    I1 (M.add user ts) :=
  I1_foldl_addStep (I1_dirty h true) user ts

theorem I1_remove {M : TagMapping} (h : I1 M) (user : String) (ts : List String) :
    I1 (M.remove user ts) :=
  I1_foldl_removeStep (I1_dirty h true) user ts

theorem I1_applyMOp {M : TagMapping} (h : I1 M) (op : MOp) : I1 (applyMOp M op) := by
  cases op with
  | madd u ts => exact I1_add h u ts
  | mremove u ts => exact I1_remove h u ts
  | mfindTag t =>
    intro t' u'
    simp only [applyMOp, TagMapping.find, dGet, dFind_dApply_id]
    exact h t' u'
  | mfindUser u =>
    intro t' u'
    simp only [applyMOp, TagMapping.find, dGet, dFind_dApply_id]
    exact h t' u'

theorem I1_applyMOps {M : TagMapping} (h : I1 M) (ops : List MOp) :
    I1 (applyMOps M ops) := by
  induction ops generalizing M with
  | nil => exact h
  | cons op rest ih => exact ih (I1_applyMOp h op)

/-- The users accumulated under normalized tag `k` while replaying a stored
dict. -/
def tagsOf : DMap → String → Finset String
  | [], _ => ∅
  | p :: rest, k =>
    if pyLower p.1 = k then p.2 ∪ tagsOf rest k else tagsOf rest k

/-- The normalized tags accumulated for user `u` while replaying a stored
dict. -/
def userTagsOf : DMap → String → Finset String
  | [], _ => ∅
  | p :: rest, u =>
    if u ∈ p.2 then insert (pyLower p.1) (userTagsOf rest u) else userTagsOf rest u

theorem dFind_foldl_insert (l : List String) (us : DMap) (k u : String) :
    dFind (l.foldl (fun m u' => dApply m u' (insert k)) us) u =
      if u ∈ l then insert k (dFind us u) else dFind us u := by
  induction l generalizing us with
  | nil => simp
  | cons u0 rest ih =>
    rw [List.foldl_cons, ih]
    by_cases h0 : u = u0 <;> by_cases hr : u ∈ rest <;>
      simp [h0, hr, dFind_dApply, List.mem_cons, Finset.insert_idem]

theorem dMem_foldl_insert (l : List String) (us : DMap) (k u : String) :
    dMem (l.foldl (fun m u' => dApply m u' (insert k)) us) u = true ↔
      (dMem us u = true ∨ u ∈ l) := by
  induction l generalizing us with
  | nil => simp
  | cons u0 rest ih =>
    rw [List.foldl_cons, ih, dMem_dApply]
    simp only [Bool.or_eq_true, beq_iff_eq, List.mem_cons]
    tauto

theorem loadEntries_tags_dFind (d : DMap) (m : TagMapping) (k : String) :
    dFind (d.foldl loadEntry m).tags k = dFind m.tags k ∪ tagsOf d k := by
  induction d generalizing m with
  | nil => simp [tagsOf]
  | cons p rest ih =>
    rw [List.foldl_cons, ih]
    by_cases h : pyLower p.1 = k
    · simp [loadEntry, tagsOf, h, dFind_dApply, Finset.union_assoc]
    · simp [loadEntry, tagsOf, h, dFind_dApply, Ne.symm h]

theorem loadEntries_tags_dMem (d : DMap) (m : TagMapping) (k : String) :
    dMem (d.foldl loadEntry m).tags k = true ↔
      (dMem m.tags k = true ∨ ∃ p ∈ d, pyLower p.1 = k) := by
  induction d generalizing m with
  | nil => simp
  | cons p rest ih =>
    rw [List.foldl_cons, ih]
    simp only [loadEntry, dMem_dApply, Bool.or_eq_true, beq_iff_eq, List.mem_cons]
    constructor
    · rintro (⟨hm | he⟩ | ⟨q, hq, hqe⟩)
      · exact Or.inl hm
      · exact Or.inr ⟨p, Or.inl rfl, he⟩
      · exact Or.inr ⟨q, Or.inr hq, hqe⟩
    · rintro (hm | ⟨q, hq | hq, hqe⟩)
      · exact Or.inl (Or.inl hm)
      · exact Or.inl (Or.inr (hq ▸ hqe))
      · exact Or.inr ⟨q, hq, hqe⟩

theorem loadEntries_users_dFind (d : DMap) (m : TagMapping) (u : String) :
    dFind (d.foldl loadEntry m).users u = dFind m.users u ∪ userTagsOf d u := by
  induction d generalizing m with
  | nil => simp [userTagsOf]
  | cons p rest ih =>
    rw [List.foldl_cons, ih]
    show dFind ((finList p.2).foldl _ m.users) u ∪ _ = _
    rw [dFind_foldl_insert]
    by_cases hu : u ∈ p.2
    · simp [userTagsOf, hu, mem_finList, Finset.insert_union, Finset.union_insert]
    · simp [userTagsOf, hu, mem_finList]

theorem loadEntries_users_dMem (d : DMap) (m : TagMapping) (u : String) :
    dMem (d.foldl loadEntry m).users u = true ↔
      (dMem m.users u = true ∨ ∃ p ∈ d, u ∈ p.2) := by
  induction d generalizing m with
  | nil => simp
  | cons p rest ih =>
    rw [List.foldl_cons, ih]
    show (dMem ((finList p.2).foldl _ m.users) u = true ∨ _) ↔ _
    rw [dMem_foldl_insert]
    simp only [mem_finList, List.mem_cons]
    constructor
    · rintro (⟨hm | he⟩ | ⟨q, hq, hqe⟩)
      · exact Or.inl hm
      · exact Or.inr ⟨p, Or.inl rfl, he⟩
      · exact Or.inr ⟨q, Or.inr hq, hqe⟩
    · rintro (hm | ⟨q, hq | hq, hqe⟩)
      · exact Or.inl (Or.inl hm)
      · exact Or.inl (Or.inr (hq ▸ hqe))
      · exact Or.inr ⟨q, hq, hqe⟩

theorem loadEntries_dirty (d : DMap) (m : TagMapping) :
    (d.foldl loadEntry m).dirty = m.dirty := by
  induction d generalizing m with
  | nil => rfl
  | cons p rest ih =>
    rw [List.foldl_cons, ih]
    rfl

theorem mem_tagsOf_iff (d : DMap) (t u : String) :
    u ∈ tagsOf d t ↔ t ∈ userTagsOf d u := by
  induction d with
  | nil => simp [tagsOf, userTagsOf]
  | cons p rest ih =>
    by_cases ht : pyLower p.1 = t
    · by_cases hu : u ∈ p.2 <;> simp [tagsOf, userTagsOf, ht, hu, ih]
    · by_cases hu : u ∈ p.2 <;> simp [tagsOf, userTagsOf, ht, hu, ih, Ne.symm ht]

theorem I1_loadDict (d : DMap) : I1 (loadDict d) := by
  intro t u
  unfold loadDict
  rw [loadEntries_tags_dFind, loadEntries_users_dFind]
  simpa [TagMapping.empty, dFind] using mem_tagsOf_iff d t u

theorem I1_load (M : TagMapping) (st : Storage) : I1 (M.load st) :=
  I1_loadDict _

theorem loadDict_dirty (d : DMap) : (loadDict d).dirty = false :=
  loadEntries_dirty d TagMapping.empty

theorem foldl_addStep_dirty (user : String) :
    ∀ (ts : List String) (m : TagMapping),
      (ts.foldl (addStep user) m).dirty = m.dirty := by
  intro ts
  induction ts with
  | nil => intro m; rfl
  | cons t rest ih =>
    intro m
    rw [List.foldl_cons, ih]
    rfl

theorem foldl_removeStep_dirty (user : String) :
    ∀ (ts : List String) (m : TagMapping),
      (ts.foldl (removeStep user) m).dirty = m.dirty := by
  intro ts
  induction ts with
  | nil => intro m; rfl
  | cons t rest ih =>
    intro m
    rw [List.foldl_cons, ih]
    rfl

theorem add_dirty (M : TagMapping) (u : String) (ts : List String) :
    (M.add u ts).dirty = true := by
  unfold TagMapping.add
  rw [foldl_addStep_dirty]

theorem remove_dirty (M : TagMapping) (u : String) (ts : List String) :
    (M.remove u ts).dirty = true := by
  unfold TagMapping.remove
  rw [foldl_removeStep_dirty]

theorem applyMOp_dirty (M : TagMapping) (op : MOp) :
    (applyMOp M op).dirty = (M.dirty || op.isMut) := by
  cases op with
  | madd u ts => simp [applyMOp, add_dirty, MOp.isMut]
  | mremove u ts => simp [applyMOp, remove_dirty, MOp.isMut]
  | mfindTag t => simp [applyMOp, TagMapping.find, MOp.isMut]
  | mfindUser u => simp [applyMOp, TagMapping.find, MOp.isMut]

theorem applyMOps_dirty (M : TagMapping) (ops : List MOp) :
    (applyMOps M ops).dirty = (M.dirty || ops.any MOp.isMut) := by
  induction ops generalizing M with
  | nil => simp [applyMOps]
  | cons op rest ih =>
    show (applyMOps (applyMOp M op) rest).dirty = _
    rw [ih, applyMOp_dirty]
    simp [Bool.or_assoc]

theorem findAllTags_fst (M : TagMapping) (l : List String) :
    (findAllTags M l).1 = l.map (fun t => dFind M.tags (pyLower t)) := by
  induction l generalizing M with
  | nil => rfl
  | cons t rest ih =>
    simp [findAllTags, dGet, ih, dFind_dApply_id]

theorem findAllTags_users (M : TagMapping) (l : List String) :
    (findAllTags M l).2.users = M.users := by
  induction l generalizing M with
  | nil => rfl
  | cons t rest ih => simp [findAllTags, ih]

theorem findAllTags_dirty (M : TagMapping) (l : List String) :
    (findAllTags M l).2.dirty = M.dirty := by
  induction l generalizing M with
  | nil => rfl
  | cons t rest ih => simp [findAllTags, ih]

theorem foldl_inter_subset (l : List (Finset String)) (s : Finset String) :
    l.foldl (· ∩ ·) s ⊆ s := by
  induction l generalizing s with
  | nil => simp [List.foldl_nil]
  | cons a rest ih =>
    rw [List.foldl_cons]
    exact (ih (s ∩ a)).trans Finset.inter_subset_left

theorem tagsOf_eq_empty {d : DMap} {k : String}
    (h : ∀ p ∈ d, ¬ pyLower p.1 = k) : tagsOf d k = ∅ := by
  induction d with
  | nil => rfl
  | cons p rest ih =>
    rw [tagsOf, if_neg (h p (List.mem_cons_self p rest))]
    exact ih (fun q hq => h q (List.mem_cons_of_mem p hq))

theorem tagsOf_eq_dFind {d : DMap} {k : String}
    (hn : (d.map Prod.fst).Nodup) (hl : ∀ p ∈ d, pyLower p.1 = p.1) :
    tagsOf d k = dFind d k := by
  induction d with
  | nil => rfl
  | cons p rest ih =>
    have hp : pyLower p.1 = p.1 := hl p (List.mem_cons_self p rest)
    simp only [List.map_cons, List.nodup_cons] at hn
    by_cases h : p.1 = k
    · have hrest : tagsOf rest k = ∅ := tagsOf_eq_empty (fun q hq => by
        rw [hl q (List.mem_cons_of_mem p hq)]
        intro he
        exact hn.1 (h ▸ he ▸ List.mem_map.mpr ⟨q, hq, rfl⟩))
      have hk : pyLower k = k := h ▸ hp
      simp [tagsOf, hp, h, hk, hrest, dFind]
    · simp [tagsOf, hp, h, dFind,
        ih hn.2 (fun q hq => hl q (List.mem_cons_of_mem p hq))]

theorem dump_eq_tags {M : TagMapping} (h : ∀ p ∈ M.tags, 0 < p.2.card) :
    M.dump = M.tags := by
  unfold TagMapping.dump
  rw [List.filter_eq_self]
  intro a ha
  simpa using h a ha

/-- A similarity score that is never consulted on the code paths of the
all-known-tags examples. -/
def simZero : String → String → ℚ := fun _ _ => 0

/-- A concrete similarity score standing in for
`difflib.SequenceMatcher(a="music", b=query).ratio()`: the real ratio is
0.8 for the query "musik" (above the 0.75 threshold) and 0.25 for "xyz"
(below it). -/
def simEx : String → String → ℚ :=
  fun _ b => if b = "musik" then mkRat 9 10 else mkRat 1 10

/-- Claim C1 (code bug evidence): with tags `a ↦ {u1,u2}`, `b ↦ {u2,u3}`
and no limit set configured, the search over known tags returns the first
queried tag's user set — the source computes
`results[0].intersection(*results[:1])`, whose slice should read
`results[1:]` — and not the pairwise intersection `{u2}` that the claim
demands, in whichever order the queried tag set is iterated. -/
theorem c1_search_missing_intersection :
    searchReply simZero (loadDict [("a", {"u1", "u2"}), ("b", {"u2", "u3"})])
        ["a", "b"] ∅ =
      .ok (.found {"u1", "u2"},
           loadDict [("a", {"u1", "u2"}), ("b", {"u2", "u3"})]) ∧
    searchReply simZero (loadDict [("a", {"u1", "u2"}), ("b", {"u2", "u3"})])
        ["b", "a"] ∅ =
      .ok (.found {"u2", "u3"},
           loadDict [("a", {"u1", "u2"}), ("b", {"u2", "u3"})]) ∧
    ({"u1", "u2"} : Finset String) ≠ {"u2"} ∧
    ({"u2", "u3"} : Finset String) ≠ {"u2"} :=
  ⟨by decide, by decide, by decide, by decide⟩

/-- Claim C3: starting from the empty mapping or from any freshly loaded
state, every sequence of `add`/`remove` (and `find`) calls preserves
invariant I1: for all tags t and users u, `u ∈ tags[t] ⟺ t ∈ users[u]`
(both indices hold the normalized tag). -/
theorem c3_invariant_index_consistency :
    (∀ ops : List MOp, I1 (applyMOps TagMapping.empty ops)) ∧
    (∀ (M : TagMapping) (st : Storage) (ops : List MOp),
      I1 (applyMOps (M.load st) ops)) :=
  ⟨fun ops => I1_applyMOps I1_empty ops,
   fun M st ops => I1_applyMOps (I1_load M st) ops⟩

/-- Claim C5 (counterexample): `find` with BOTH selectors supplied does not
signal a lookup failure — the tag branch is silently taken and a value is
returned. -/
theorem c5_find_both_selectors_counterexample :
    TagMapping.empty.find (some "a") (some "b") ≠ none := by decide

/-- Claim C5 (amended): `find` signals a lookup failure (KeyError) exactly
when neither selector is supplied; when the tag selector is present a user
selector is ignored (the tag branch wins, so both-selectors does not fail);
an unknown key under a single selector yields the empty set, never an
absent result. -/
theorem c5_find_selectors_amended :
    (∀ (M : TagMapping) (ts us : Option String),
      M.find ts us = none ↔ (ts = none ∧ us = none)) ∧
    (∀ (M : TagMapping) (t : String) (us : Option String),
      M.find (some t) us = M.find (some t) none) ∧
    (∀ (M : TagMapping) (t : String), dMem M.tags (pyLower t) = false →
      (M.find (some t) none).map Prod.fst = some ∅) ∧
    (∀ (M : TagMapping) (u : String), dMem M.users u = false →
      (M.find none (some u)).map Prod.fst = some ∅) := by
  refine ⟨?_, ?_, ?_, ?_⟩
  · intro M ts us
    cases ts <;> cases us <;> simp [TagMapping.find]
  · intro M t us
    rfl
  · intro M t h
    simp [TagMapping.find, dGet, dFind_eq_empty h]
  · intro M u h
    simp [TagMapping.find, dGet, dFind_eq_empty h]

/-- Witness for the amended C5 at a concrete input: a single unknown tag
selector yields the empty set. -/
theorem c5_find_selectors_amended_witness :
    (TagMapping.empty.find (some "x") none).map Prod.fst = some ∅ :=
  c5_find_selectors_amended.2.2.1 TagMapping.empty "x" (by decide)

/-- Claim C6 (code bug evidence): in `taggerbot.py` the wording follows the
claim — a best ratio above 0.75 produces the did-you-mean variant citing
the nearest known tag, a lower ratio produces the plain unknown-tag
message naming only the query, and both outcomes end the search without
substituting the suggestion — but in `tagger-bot.py` the two templates are
swapped: its high-ratio branch emits the plain unknown wording (the extra
format argument is ignored) and its low-ratio branch formats the
three-hole did-you-mean template with only two arguments, raising
IndexError. -/
theorem c6_unknown_tag_wording :
    searchReply simEx (loadDict [("music", {"u1"})]) ["musik"] ∅ =
      .ok (.typo "musik" "music", loadDict [("music", {"u1"})]) ∧
    searchReply simEx (loadDict [("music", {"u1"})]) ["xyz"] ∅ =
      .ok (.unknown "xyz", loadDict [("music", {"u1"})]) ∧
    renderOutcome "s" ["musik"] (.typo "musik" "music") =
      tagSearchTypoText "s" "musik" "music" ∧
    renderOutcome "s" ["xyz"] (.unknown "xyz") = tagSearchUnknownText "s" "xyz" ∧
    simEx (pyLower "music") (pyLower "musik") > mkRat 3 4 ∧
    ¬ simEx (pyLower "music") (pyLower "xyz") > mkRat 3 4 ∧
    command_search simEx "s" (loadDict [("music", {"u1"})]) ["musik"] ∅ =
      .ok (tagSearchUnknownText "s" "musik", loadDict [("music", {"u1"})]) ∧
    command_search simEx "s" (loadDict [("music", {"u1"})]) ["xyz"] ∅ =
      .error .indexError :=
  ⟨by decide, by decide, by decide, by decide, by decide, by decide,
   by decide, by decide⟩

/-- Claim C7: `read_parameters` signals MissingParameter exactly when the
number of raw segments differs from one; given exactly one segment it
splits on commas, trims surrounding whitespace from every piece and
collapses duplicates; in particular `add` with an empty remainder yields
the missing-parameter reply, not a crash. -/
theorem c7_read_parameters :
    (∀ params : List String,
      read_parameters params = .error .missingParameter ↔ params.length ≠ 1) ∧
    (∀ p : String,
      read_parameters [p] = .ok (((pySplit p ',').map pyTrim).dedup)) ∧
    (∀ p : String, (((pySplit p ',').map pyTrim).dedup).Nodup) ∧
    read_parameters ["a, b ,a"] = .ok ["b", "a"] ∧
    handle_message simZero "add" "alice" Storage.empty =
      ([errParamText], Storage.empty) := by
  refine ⟨?_, fun p => rfl, fun p => List.nodup_dedup _, by decide, by decide⟩
  intro params
  match params with
  | [] => simp [read_parameters]
  | [p] => simp [read_parameters]
  | p :: q :: rest => simp [read_parameters]

/-- Claim C2: whenever the persisted limit set is non-empty, the search
result over known tags is `limit.intersection(*results)`, hence only users
of the limit set appear; with limit `{u2,u3}` and `a ↦ {u1,u2}`,
`search("a")` returns `{u2}`; and with an empty limit set nothing is
narrowed: every user lying in all the per-tag result sets is in the
returned set. -/
theorem c2_limit_narrowing :
    (∀ (sim : String → String → ℚ) (M : TagMapping) (l : List String)
        (limit us : Finset String) (M' : TagMapping),
        0 < limit.card →
        searchReply sim M l limit = .ok (.found us, M') →
        us = ((findAllTags M l).1).foldl (· ∩ ·) limit ∧ us ⊆ limit) ∧
    searchReply simZero (loadDict [("a", {"u1", "u2"})]) ["a"] {"u2", "u3"} =
      .ok (.found {"u2"}, loadDict [("a", {"u1", "u2"})]) ∧
    (∀ (sim : String → String → ℚ) (M : TagMapping) (l : List String)
        (us : Finset String) (M' : TagMapping),
        searchReply sim M l ∅ = .ok (.found us, M') →
        ∀ x, (∀ r ∈ (findAllTags M l).1, x ∈ r) → x ∈ us) := by
  refine ⟨?_, by decide, ?_⟩
  · intro sim M l limit us M' hlim h
    cases hf : l.find? (fun t => ! M.contains t) with
    | some tag =>
      simp only [searchReply, hf] at h
      cases hn : M.nearest sim tag with
      | none => simp [hn] at h
      | some p =>
        simp only [hn] at h
        split at h <;> simp at h
    | none =>
      simp only [searchReply, hf] at h
      rw [if_pos hlim] at h
      simp only [Except.ok.injEq, Prod.mk.injEq, SearchOutcome.found.injEq] at h
      refine ⟨h.1.symm, ?_⟩
      rw [← h.1]
      exact foldl_inter_subset _ _
  · intro sim M l us M' h x hx
    cases hf : l.find? (fun t => ! M.contains t) with
    | some tag =>
      simp only [searchReply, hf] at h
      cases hn : M.nearest sim tag with
      | none => simp [hn] at h
      | some p =>
        simp only [hn] at h
        split at h <;> simp at h
    | none =>
      simp only [searchReply, hf] at h
      rw [if_neg (by simp)] at h
      cases hr : (findAllTags M l).1 with
      | nil => rw [hr] at h; simp at h
      | cons r0 rest =>
        rw [hr] at h
        simp only [List.take_succ_cons, List.take_zero, List.foldl_cons,
          List.foldl_nil, Except.ok.injEq, Prod.mk.injEq,
          SearchOutcome.found.injEq] at h
        rw [← h.1, Finset.inter_self]
        exact hx r0 (hr ▸ List.mem_cons_self r0 rest)

/-- Witness for C2 at a concrete instance: the returned set is contained in
the limit set. -/
theorem c2_limit_narrowing_witness :
    ({"u2"} : Finset String) ⊆ {"u2", "u3"} :=
  (c2_limit_narrowing.1 simZero (loadDict [("a", {"u1", "u2"})]) ["a"]
    {"u2", "u3"} {"u2"} (loadDict [("a", {"u1", "u2"})])
    (by decide) (by decide)).2

/-- Claim C4 (counterexample): the mapping reached by `add(u1, "a")` then
`remove(u2, "a")` has no empty tag entries, yet storing its dump under the
mapping key and loading back does not reproduce the users index: the empty
entry `users[u2]`, created by remove's defaultdict access, is lost. -/
theorem c4_roundtrip_counterexample :
    ((TagMapping.empty.add "u1" ["a"]).remove "u2" ["a"]).tags.all
        (fun p => 0 < p.2.card) = true ∧
    dMem ((TagMapping.empty.add "u1" ["a"]).remove "u2" ["a"]).users "u2" = true ∧
    dMem (TagMapping.empty.load
      { Storage.empty with
        mapping :=
          some ((TagMapping.empty.add "u1" ["a"]).remove "u2" ["a"]).dump }).users
      "u2" = false :=
  ⟨by decide, by decide, by decide⟩

/-- Claim C4 (amended): for a well-formed mapping — duplicate-free
normalized tag keys, the two indices consistent (I1), and no empty entries
in either index — storing the dump under the mapping key and loading from
that store reproduces both indices exactly: same keys and same sets. -/
theorem c4_roundtrip_amended (M : TagMapping) (st : Storage)
    (hn : (M.tags.map Prod.fst).Nodup)
    (hl : ∀ p ∈ M.tags, pyLower p.1 = p.1)
    (ht : ∀ p ∈ M.tags, 0 < p.2.card)
    (hu : ∀ p ∈ M.users, 0 < p.2.card)
    (hI : I1 M) :
    (∀ k, dMem (TagMapping.empty.load { st with mapping := some M.dump }).tags k
            = dMem M.tags k ∧
          dFind (TagMapping.empty.load { st with mapping := some M.dump }).tags k
            = dFind M.tags k) ∧
    (∀ u, dMem (TagMapping.empty.load { st with mapping := some M.dump }).users u
            = dMem M.users u ∧
          dFind (TagMapping.empty.load { st with mapping := some M.dump }).users u
            = dFind M.users u) := by
  have hload : TagMapping.empty.load { st with mapping := some M.dump }
      = loadDict M.tags := by
    unfold TagMapping.load
    rw [dump_eq_tags ht]
    rfl
  rw [hload]
  constructor
  · intro k
    constructor
    · apply Bool.coe_iff_coe.mp
      rw [show (loadDict M.tags).tags = (M.tags.foldl loadEntry TagMapping.empty).tags
        from rfl]
      rw [loadEntries_tags_dMem]
      constructor
      · rintro (hm | ⟨p, hp, he⟩)
        · simp [TagMapping.empty, dMem] at hm
        · rw [hl p hp] at he
          exact dMem_true_iff.mpr ⟨p, hp, he⟩
      · intro hm
        obtain ⟨p, hp, he⟩ := dMem_true_iff.mp hm
        exact Or.inr ⟨p, hp, (hl p hp).trans he⟩
    · rw [show (loadDict M.tags).tags = (M.tags.foldl loadEntry TagMapping.empty).tags
        from rfl]
      rw [loadEntries_tags_dFind, tagsOf_eq_dFind hn hl]
      simp [TagMapping.empty, dFind]
  · intro u
    constructor
    · apply Bool.coe_iff_coe.mp
      rw [show (loadDict M.tags).users = (M.tags.foldl loadEntry TagMapping.empty).users
        from rfl]
      rw [loadEntries_users_dMem]
      constructor
      · rintro (hm | ⟨p, hp, hpu⟩)
        · simp [TagMapping.empty, dMem] at hm
        · have h1 : u ∈ dFind M.tags p.1 := by
            rw [dFind_of_mem_nodup hn hp]
            exact hpu
          have h2 : p.1 ∈ dFind M.users u := (hI p.1 u).mp h1
          by_contra hc
          rw [dFind_eq_empty (Bool.not_eq_true _ ▸ hc)] at h2
          simp at h2
      · intro hm
        obtain ⟨q, hq, hq1, hq2⟩ := dFind_of_dMem hm
        obtain ⟨t, htq⟩ := Finset.card_pos.mp (hu q hq)
        have h1 : t ∈ dFind M.users u := hq2 ▸ htq
        have h2 : u ∈ dFind M.tags t := (hI t u).mpr h1
        obtain ⟨p, hp, hp1, hpu⟩ := (mem_dFind_iff hn).mp h2
        exact Or.inr ⟨p, hp, hpu⟩
    · rw [show (loadDict M.tags).users = (M.tags.foldl loadEntry TagMapping.empty).users
        from rfl]
      rw [loadEntries_users_dFind]
      rw [show dFind TagMapping.empty.users u = ∅ from rfl, Finset.empty_union]
      apply Finset.ext
      intro t
      rw [← mem_tagsOf_iff, tagsOf_eq_dFind hn hl]
      exact hI t u

/-- Witness for the amended C4 at a concrete input: the round trip
reproduces the tag entry of `add(u1, "a")` exactly. -/
theorem c4_roundtrip_amended_witness :
    dFind (TagMapping.empty.load
        { Storage.empty with
          mapping := some (TagMapping.empty.add "u1" ["a"]).dump }).tags "a"
      = dFind (TagMapping.empty.add "u1" ["a"]).tags "a" :=
  ((c4_roundtrip_amended (TagMapping.empty.add "u1" ["a"]) Storage.empty
    (by decide) (by decide) (by decide) (by decide)
    (I1_add I1_empty "u1" ["a"])).1 "a").2

/-- Claim C8: a freshly loaded mapping is clean, and load's result is
independent of the prior in-memory state (full replacement, no merge);
after a sequence of operations on a freshly loaded mapping the dirty flag
is set exactly when the sequence contains an add or remove; store leaves
the storage untouched when clean and, when dirty, writes the dump under
the mapping key and clears the flag. -/
theorem c8_dirty_contract :
    (∀ (M : TagMapping) (st : Storage), (M.load st).dirty = false) ∧
    (∀ (M M' : TagMapping) (st : Storage), M.load st = M'.load st) ∧
    (∀ (M : TagMapping) (st : Storage) (ops : List MOp),
      (applyMOps (M.load st) ops).dirty = ops.any MOp.isMut) ∧
    (∀ (M : TagMapping) (st : Storage), M.dirty = false → M.store st = (M, st)) ∧
    (∀ (M : TagMapping) (st : Storage), M.dirty = true →
      M.store st =
        ({ M with dirty := false }, { st with mapping := some M.dump })) := by
  refine ⟨?_, ?_, ?_, ?_, ?_⟩
  · intro M st
    exact loadDict_dirty _
  · intro M M' st
    rfl
  · intro M st ops
    rw [applyMOps_dirty, show (M.load st).dirty = false from loadDict_dirty _]
    exact Bool.false_or _
  · intro M st h
    simp [TagMapping.store, h]
  · intro M st h
    simp [TagMapping.store, h]

/-- Witness for C8 at a concrete input: storing a clean mapping writes
nothing. -/
theorem c8_dirty_contract_witness :
    TagMapping.empty.store Storage.empty = (TagMapping.empty, Storage.empty) :=
  c8_dirty_contract.2.2.2.1 TagMapping.empty Storage.empty rfl

/-- Claim C9: `handle_message` is total — no exception escapes the
dispatcher boundary: a missing parameter and an unknown command each
produce their user-facing reply, every other dispatcher error produces no
reply and leaves the store untouched, and a successful dispatch is passed
through; concretely, an unrecognized command is echoed back and a search
whose `nearest` call fails on an empty mapping is swallowed with no
reply. -/
theorem c9_no_exception_escapes :
    (∀ sim content sender st,
      dispatch sim content sender st = .error .missingParameter →
      handle_message sim content sender st = ([errParamText], st)) ∧
    (∀ sim content sender st cmd,
      dispatch sim content sender st = .error (.invalidCommand cmd) →
      handle_message sim content sender st = ([errCommandText cmd], st)) ∧
    (∀ sim content sender st e, e ≠ BotError.missingParameter →
      (∀ cmd, e ≠ BotError.invalidCommand cmd) →
      dispatch sim content sender st = .error e →
      handle_message sim content sender st = ([], st)) ∧
    (∀ sim content sender st r,
      dispatch sim content sender st = .ok r →
      handle_message sim content sender st = r) ∧
    handle_message simZero "frobnicate all" "alice" Storage.empty =
      ([errCommandText "frobnicate"], Storage.empty) ∧
    handle_message simZero "search:ghost" "alice" Storage.empty =
      ([], Storage.empty) := by
  refine ⟨?_, ?_, ?_, ?_, by decide, by decide⟩
  · intro sim content sender st h
    simp [handle_message, h]
  · intro sim content sender st cmd h
    simp [handle_message, h]
  · intro sim content sender st e h1 h2 h3
    cases e with
    | missingParameter => exact absurd rfl h1
    | invalidCommand c => exact absurd rfl (h2 c)
    | valueError => simp [handle_message, h3]
    | indexError => simp [handle_message, h3]
    | attributeError => simp [handle_message, h3]
  · intro sim content sender st r h
    simp [handle_message, h]

/-- Witness for C9 at a concrete input: `add` without parameters produces
the missing-parameter reply. -/
theorem c9_no_exception_escapes_witness :
    handle_message simZero "add" "alice" Storage.empty =
      ([errParamText], Storage.empty) :=
  c9_no_exception_escapes.1 simZero "add" "alice" Storage.empty (by decide)

/-- Claim C10: a `find` with an unknown key mutates the mapping: the
normalized tag (resp. the user) is inserted into the corresponding index
with an empty set, so `contains` subsequently answers true for a tag that
no add call ever inserted. -/
theorem c10_find_mutates :
    (∀ (M : TagMapping) (t : String), dMem M.tags (pyLower t) = false →
      ∀ r M', M.find (some t) none = some (r, M') →
        r = ∅ ∧ M'.contains (pyLower t) = true ∧
        dFind M'.tags (pyLower t) = ∅) ∧
    (∀ (M : TagMapping) (u : String), dMem M.users u = false →
      ∀ r M', M.find none (some u) = some (r, M') →
        r = ∅ ∧ dMem M'.users u = true ∧ dFind M'.users u = ∅) ∧
    TagMapping.empty.contains "ghost" = false ∧
    TagMapping.empty.find (some "ghost") none =
      some (∅, { TagMapping.empty with tags := [("ghost", ∅)] }) ∧
    TagMapping.contains { TagMapping.empty with tags := [("ghost", ∅)] }
      "ghost" = true := by
  refine ⟨?_, ?_, by decide, by decide, by decide⟩
  · intro M t h r M' hf
    simp only [TagMapping.find, dGet, Option.some.injEq, Prod.mk.injEq] at hf
    obtain ⟨h1, h2⟩ := hf
    refine ⟨h1 ▸ dFind_eq_empty h, ?_, ?_⟩
    · rw [← h2]
      show dMem (dApply M.tags (pyLower t) id) (pyLower t) = true
      rw [dMem_dApply]
      simp
    · rw [← h2]
      show dFind (dApply M.tags (pyLower t) id) (pyLower t) = ∅
      rw [dFind_dApply_id]
      exact dFind_eq_empty h
  · intro M u h r M' hf
    simp only [TagMapping.find, dGet, Option.some.injEq, Prod.mk.injEq] at hf
    obtain ⟨h1, h2⟩ := hf
    refine ⟨h1 ▸ dFind_eq_empty h, ?_, ?_⟩
    · rw [← h2]
      show dMem (dApply M.users u id) u = true
      rw [dMem_dApply]
      simp
    · rw [← h2]
      show dFind (dApply M.users u id) u = ∅
      rw [dFind_dApply_id]
      exact dFind_eq_empty h

/-- Witness for C10 at a concrete input: after a bare `find` for the
never-added tag "ghost" on the empty mapping, `contains` answers true. -/
theorem c10_find_mutates_witness :
    TagMapping.contains { TagMapping.empty with tags := [("ghost", ∅)] }
      (pyLower "ghost") = true :=
  (c10_find_mutates.1 TagMapping.empty "ghost" (by decide) ∅
    { TagMapping.empty with tags := [("ghost", ∅)] } (by decide)).2.1

end TaggerBot
